import Mathlib

/-!
# Ledger transfer load generator (`main.go`)

A shallow embedding of the transfer executor `performTransfer`, the work loop
`runner.run` and the SQL statements they issue against the `account` table,
followed by the properties of the specification that were checked against it.

Conventions of the embedding

* The `account` table is a list of rows; the `id` column is the primary key, so
  a well-formed table has pairwise distinct ids (`Table.WellFormed`).
* The `balance` column is a `DECIMAL`; it is embedded as an arbitrary ring `B`
  and the Go `int` parameter `$3` is cast into it, as the SQL engine does.
  Concrete evaluations take `B := Int`.
* A Go `string` is a sequence of bytes.
* A Go `error` value is `Option GoError`: `none` is `nil`.
-/

namespace CRDBGoApp

/-! ## Data model -/

/-- One row of `CREATE TABLE account (id UUID PRIMARY KEY ..., balance DECIMAL NOT NULL)`. -/
structure Account (ι : Type) (B : Type) where
  id : ι
  balance : B
  deriving DecidableEq

/-- The rows of the `account` table, in storage order. -/
abbrev Table (ι : Type) (B : Type) := List (Account ι B)

/-- The ids stored in the table. -/
def Table.ids {ι B : Type} (t : Table ι B) : List ι := t.map Account.id

/-- Primary key constraint: no two rows carry the same id. -/
def Table.WellFormed {ι B : Type} (t : Table ι B) : Prop := t.ids.Nodup

/-- The balance stored for `x`, if a row with that id exists. -/
def Table.balanceOf {ι B : Type} [DecidableEq ι] (t : Table ι B) (x : ι) : Option B :=
  (t.find? (fun r => decide (r.id = x))).map Account.balance

/-- The sum of the balance column over all rows. -/
def Table.total {ι B : Type} [Ring B] (t : Table ι B) : B :=
  (t.map Account.balance).sum

/-- Errors a statement can raise inside the SQL engine. -/
inductive SqlError where
  /-- A `NULL` was assigned to a `NOT NULL` column. -/
  | notNullViolation
  /-- A row with an already present primary key was inserted. -/
  | uniqueViolation
  deriving DecidableEq

/-! ## The transfer statement of `performTransfer`

```
UPDATE account
  SET balance = CASE
      WHEN id = $1 THEN balance - $3
      WHEN id = $2 THEN balance + $3
  END
WHERE id IN ($1, $2);
```
-/

/-- The `WHERE id IN ($1, $2)` predicate. -/
def whereClause {ι B : Type} [DecidableEq ι] (fromId toId : ι) (r : Account ι B) : Bool :=
  decide (r.id = fromId) || decide (r.id = toId)

/-- The `CASE ... END` expression: the first matching `WHEN` branch decides, and
a `CASE` without `ELSE` is `NULL` (`none`) when no branch matches. -/
def caseExpr {ι B : Type} [DecidableEq ι] [Ring B]
    (fromId toId : ι) (amount : Int) (r : Account ι B) : Option B :=
  if r.id = fromId then some (r.balance - (amount : B))
  else if r.id = toId then some (r.balance + (amount : B))
  else none

/-- The effect of the `UPDATE` on one row: rows outside the `WHERE` clause are
kept, a selected row gets the value of the `CASE` expression, and assigning
`NULL` violates `balance DECIMAL NOT NULL`. -/
def updateRow {ι B : Type} [DecidableEq ι] [Ring B]
    (fromId toId : ι) (amount : Int) (r : Account ι B) : Except SqlError (Account ι B) :=
  if whereClause fromId toId r then
    match caseExpr fromId toId amount r with
    | some b => Except.ok { r with balance := b }
    | none => Except.error SqlError.notNullViolation
  else Except.ok r

/-- The statement `stmt` of `performTransfer` with parameters
`($1, $2, $3) = (fromId, toId, amount)`, as a function on the table. The
statement is atomic: if any row fails, no row is changed (the error is returned
and the caller keeps the old table). -/
def stmt {ι B : Type} [DecidableEq ι] [Ring B]
    (fromId toId : ι) (amount : Int) (t : Table ι B) : Except SqlError (Table ι B) :=
  t.mapM (updateRow fromId toId amount)

/-! ## Seeding

```
INSERT INTO account (balance) SELECT 10000 FROM generate_series(1, $1)
```
The ids come from the column default `gen_random_uuid()`; they are the
parameter `fresh` (one per generated row, so `rowCount = fresh.length`). -/

/-- The `INSERT` of `seed`: one row of balance 10000 per generated id; the
primary key rejects the statement when an id is already present or generated
twice. -/
def seed {ι B : Type} [DecidableEq ι] [Ring B] (fresh : List ι) (t : Table ι B) :
    Except SqlError (Table ι B) :=
  if (t.ids ++ fresh).Nodup then
    Except.ok (t ++ fresh.map (fun i => { id := i, balance := (10000 : B) }))
  else Except.error SqlError.uniqueViolation

/-- A transfer request `(from, to, amount)`. -/
structure Transfer (ι : Type) where
  fromId : ι
  toId : ι
  amount : Int
  deriving DecidableEq

/-- A sequence of committed transfers: each statement is applied to the table
left by the previous one; the first failing statement stops the sequence. -/
def commitAll {ι B : Type} [DecidableEq ι] [Ring B] :
    List (Transfer ι) → Table ι B → Except SqlError (Table ι B)
  | [], t => Except.ok t
  | x :: xs, t =>
    match stmt x.fromId x.toId x.amount t with
    | Except.ok t1 => commitAll xs t1
    | Except.error e => Except.error e

/-! ## Basic facts about the statement -/

/-- The row the statement writes for a row `r`: the pure reading of `updateRow`. -/
def updatedRow {ι B : Type} [DecidableEq ι] [Ring B]
    (fromId toId : ι) (amount : Int) (r : Account ι B) : Account ι B :=
  if r.id = fromId then { r with balance := r.balance - (amount : B) }
  else if r.id = toId then { r with balance := r.balance + (amount : B) }
  else r

/-! ## Go values -/

/-- A Go `string`: a sequence of bytes. -/
abbrev GoString := List UInt8

/-- The bytes of an ASCII literal. -/
def ascii (s : String) : GoString := s.toList.map (fun c => UInt8.ofNat c.toNat)

/-- A non-nil Go `error` value, as far as `main.go` and its helpers inspect it. -/
inductive GoError where
  /-- The sentinel `context.Canceled`. -/
  | canceled
  /-- The sentinel `context.DeadlineExceeded`. -/
  | deadlineExceeded
  /-- A database error carrying an SQLSTATE code. -/
  | pg (sqlstate : String)
  /-- Any other error, identified by its message. -/
  | other (msg : String)
  /-- An error wrapping another one (`fmt.Errorf("...: %w", inner)`). -/
  | wrap (msg : String) (inner : GoError)
  deriving DecidableEq

/-- The function `errors.Is(err, target)` for a non-nil `err`: walks the `Unwrap` chain
of `err` and compares each link with `target`. -/
def errorsIs : GoError → GoError → Bool
  | GoError.wrap msg inner, target =>
    decide (GoError.wrap msg inner = target) || errorsIs inner target
  | e, target => decide (e = target)

/-- The error the driver reports for a failed statement. -/
def SqlError.toGo : SqlError → GoError
  | SqlError.notNullViolation => GoError.pg "23502"
  | SqlError.uniqueViolation => GoError.pg "23505"

/-- A `time.Duration`: a number of nanoseconds. -/
abbrev Duration := Int

/-- The method `Duration.Milliseconds`: `int64(d) / 1e6`, Go integer division. -/
def Duration.Milliseconds (d : Duration) : Int := Int.tdiv d 1000000

/-- The function `time.Since(start)` when the clock reads `now`. -/
def timeSince (now start : Int) : Duration := now - start

/-! ## The database, seen from one client

The pool handle `db` runs each statement in its own implicit transaction, which
commits as soon as the statement succeeds. The transaction handle `tx` runs a
statement inside the open transaction: its effect is staged and reaches the
table only when the transaction commits. -/

/-- The two handles a statement can be issued through inside the transaction body. -/
inductive Handle where
  /-- The connection pool `db *pgxpool.Pool`. -/
  | pool
  /-- The transaction `tx pgx.Tx` handed to the body by the retry helper. -/
  | tx
  deriving DecidableEq

/-- What the server answers to one request. -/
inductive Answer where
  /-- The request is carried out. -/
  | ok
  /-- The request is refused or lost, nothing is carried out, and the client gets `e`. -/
  | fail (e : GoError)
  deriving DecidableEq

/-- Modelled from the spec: the database server behind `pgxpool`/`pgx` is not part of
the repository. State of the database: the committed rows and the statements
staged in the open transaction. -/
structure Db (ι : Type) (B : Type) where
  table : Table ι B
  staged : List (Transfer ι)
  deriving DecidableEq

/-- Modelled from the spec: `COMMIT` (`RELEASE SAVEPOINT cockroach_restart`) of the open
transaction, all or nothing: the staged statements reach the table together, or
none of them does. -/
def Db.commit {ι B : Type} [DecidableEq ι] [Ring B] (db : Db ι B) : Db ι B :=
  match commitAll db.staged db.table with
  | Except.ok t => { table := t, staged := [] }
  | Except.error _ => { table := db.table, staged := [] }

/-- Modelled from the spec: `ROLLBACK` of the open transaction: the staged statements
are dropped, the committed rows are not touched. -/
def Db.rollback {ι B : Type} (db : Db ι B) : Db ι B :=
  { table := db.table, staged := [] }

/-- Modelled from the spec: `Exec(ctx, stmt, from, to, amount)` on a handle. Through the
pool the statement commits on its own; through the transaction it is staged. A
request the server does not carry out changes nothing. -/
def Db.exec {ι B : Type} [DecidableEq ι] [Ring B]
    (h : Handle) (ans : Answer) (x : Transfer ι) (db : Db ι B) : Option GoError × Db ι B :=
  match ans with
  | Answer.fail e => (some e, db)
  | Answer.ok =>
    match h with
    | Handle.pool =>
      match stmt x.fromId x.toId x.amount db.table with
      | Except.ok t => (none, { db with table := t })
      | Except.error e => (some e.toGo, db)
    | Handle.tx => (none, { db with staged := db.staged ++ [x] })

/-! ## The retry helper `crdbpgx.ExecuteTx` -/

/-- The check `errIsRetryable` of the retry helper: the error chain holds a database
error with SQLSTATE 40001 (serialization failure, the transient conflict). -/
def errIsRetryable : GoError → Bool
  | GoError.pg code => decide (code = "40001")
  | GoError.wrap _ inner => errIsRetryable inner
  | _ => false

/-- The server side of one attempt of the transaction. -/
structure Attempt where
  /-- Answer to the statement issued by the body. -/
  exec : Answer
  /-- Answer to the commit that follows a body returning `nil`. -/
  release : Answer
  deriving DecidableEq

/-- The server side of one `ExecuteTx` call: the answer to `BEGIN` and the attempts
that fit before the deadline of the context; when they are used up the context
reports `context.DeadlineExceeded`. -/
structure TxEnv where
  begin : Answer
  attempts : List Attempt
  deriving DecidableEq

/-- Modelled from the spec: the retry loop of `crdbpgx.ExecuteTx` (package
`cockroach-go`, not part of the repository), after the state machine
`(BeginTxn -> Execute -> Commit)` restarted on a transient conflict: run the body;
if it returns `nil`, commit; on a retryable error roll back and run the body
again; any other error rolls back and is returned. -/
def retryLoop {ι B : Type} [DecidableEq ι] [Ring B]
    (fn : Handle → Answer → Db ι B → Option GoError × Db ι B) :
    List Attempt → Db ι B → Option GoError × Db ι B
  | [], db => (some GoError.deadlineExceeded, db.rollback)
  | a :: rest, db =>
    match fn Handle.tx a.exec db with
    | (none, db1) =>
      match a.release with
      | Answer.ok => (none, db1.commit)
      | Answer.fail e =>
        if errIsRetryable e then retryLoop fn rest db1.rollback
        else (some e, db1.rollback)
    | (some e, db1) =>
      if errIsRetryable e then retryLoop fn rest db1.rollback
      else (some e, db1.rollback)

/-- Modelled from the spec: `crdbpgx.ExecuteTx(ctx, db, pgx.TxOptions{}, fn)`: begin a
transaction, then run the retry loop with the transaction handle. -/
def ExecuteTx {ι B : Type} [DecidableEq ι] [Ring B]
    (env : TxEnv) (fn : Handle → Answer → Db ι B → Option GoError × Db ι B)
    (db : Db ι B) : Option GoError × Db ι B :=
  match env.begin with
  | Answer.fail e => (some e, db)
  | Answer.ok => retryLoop fn env.attempts db

/-! ## `performTransfer` -/

/-- The transaction body of `performTransfer`:
`func(tx pgx.Tx) error { _, err = db.Exec(timeout, stmt, from, to, amount); return err }`.
The handle `tx` it is given is not used; the statement goes through the pool. -/
def transferBody {ι B : Type} [DecidableEq ι] [Ring B] (fromId toId : ι) (amount : Int) :
    Handle → Answer → Db ι B → Option GoError × Db ι B :=
  fun _tx ans db => Db.exec Handle.pool ans { fromId := fromId, toId := toId, amount := amount } db

/-- The function `performTransfer(db, from, to, amount)`. The clock reads `start` at
`time.Now()` and `finish` when the deferred function runs; the deferred function
assigns the named result `elapsed` on every return path. Returns
`((elapsed, err), database afterwards)`. -/
def performTransfer {ι B : Type} [DecidableEq ι] [Ring B]
    (env : TxEnv) (start finish : Int) (db : Db ι B) (fromId toId : ι) (amount : Int) :
    (Duration × Option GoError) × Db ι B :=
  let r := ExecuteTx env (transferBody fromId toId amount) db
  ((timeSince finish start, r.1), r.2)

/-- The transaction body as the specification describes it, issuing the statement
through the transaction handle it is given. Not the code of `main.go`; kept to
compare the two. -/
def transferBodyOnTx {ι B : Type} [DecidableEq ι] [Ring B] (fromId toId : ι) (amount : Int) :
    Handle → Answer → Db ι B → Option GoError × Db ι B :=
  fun h ans db => Db.exec h ans { fromId := fromId, toId := toId, amount := amount } db

/-! ## The work loop `runner.run` -/

/-- Modelled from the spec: `lo.Samples` (package `samber/lo`) is not part of the
repository; the work loop needs random picks at distinct positions of the pool.
This is the loop of the library, `for i := 0; i < size && i < count; i++`: each
round draws `index := rand.Intn(size - i)`, appends `copy[index]` to the results,
overwrites `copy[index]` with the last element and drops the last element.
`rnd i` is the raw random value of round `i`, reduced modulo `size - i`; `fuel`
is `count - i`. -/
def samplesLoop {α : Type} (rnd : Nat → Nat) (size : Nat) : Nat → Nat → List α → List α
  | 0, _, _ => []
  | fuel + 1, i, cp =>
    if i < size then
      let copyLength := size - i
      let index := rnd i % (size - i)
      match cp[index]?, cp[copyLength - 1]? with
      | some x, some last =>
        x :: samplesLoop rnd size fuel (i + 1) ((cp.set index last).take (copyLength - 1))
      | _, _ => []
    else []

/-- Modelled from the spec: `lo.Samples(collection, count)`: `count` random items taken
at distinct positions of the collection. -/
def Samples {α : Type} (rnd : Nat → Nat) (collection : List α) (count : Nat) : List α :=
  samplesLoop rnd collection.length count 0 collection

/-- The slice expression `s[lo:hi]` on a string; `none` is the run-time panic
"slice bounds out of range". -/
def slice (s : GoString) (lo hi : Nat) : Option GoString :=
  if lo ≤ hi ∧ hi ≤ s.length then some ((s.drop lo).take (hi - lo)) else none

/-- A call of `log.Printf` in the work loop. -/
inductive LogLine where
  /-- The call `log.Printf("error: %v", err)`. -/
  | error (err : GoError)
  /-- The call `log.Printf("%s -> %s took %dms", a, b, ms)`. -/
  | took (a b : GoString) (ms : Int)
  deriving DecidableEq

/-- Whether the line is an "error: ..." line. -/
def LogLine.isError : LogLine → Bool
  | LogLine.error _ => true
  | LogLine.took _ _ _ => false

/-- Whether the line is a "... -> ... took ...ms" line. -/
def LogLine.isTook : LogLine → Bool
  | LogLine.error _ => false
  | LogLine.took _ _ _ => true

/-- Where the process stands. -/
inductive Status where
  /-- The loop waits for the next tick. -/
  | running
  /-- A run-time panic (index or slice out of range) ended the process. -/
  | panicked
  /-- The call `log.Fatalf` ended the process. -/
  | exited
  /-- The function `run` returned. -/
  | returned
  deriving DecidableEq

/-- The state of the driver: the database, the log written so far and the status. -/
structure LoopState (B : Type) where
  db : Db GoString B
  log : List LogLine
  status : Status

/-- What one tick draws from its environment: the random values of `lo.Samples`, the
raw value behind `rand.Intn(100)`, the server side of the transfer and the two
clock readings. -/
structure Tick where
  rnd : Nat → Nat
  amountRaw : Nat
  tx : TxEnv
  start : Int
  finish : Int

/-- The lines the body of the loop logs after `performTransfer` returned
`(taken, err)`, up to the slice expressions:
`if err != nil && !errors.Is(err, context.Canceled) { log.Printf("error: %v", err) }`. -/
def errorLines : Option GoError → List LogLine
  | none => []
  | some e => if !errorsIs e GoError.canceled then [LogLine.error e] else []

/-- One round of `for range time.NewTicker(...).C { ... }` in `runner.run`. -/
def iteration {B : Type} [Ring B] (selectionIDs : List GoString) (tk : Tick)
    (st : LoopState B) : LoopState B :=
  let ids := Samples tk.rnd selectionIDs 2
  match ids[0]?, ids[1]? with
  | some id0, some id1 =>
    let r := performTransfer tk.tx tk.start tk.finish st.db id0 id1 ((tk.amountRaw % 100 : Nat) : Int)
    let log1 := st.log ++ errorLines r.1.2
    match slice id0 0 8, slice id1 0 8 with
    | some a, some b =>
      { db := r.2, log := log1 ++ [LogLine.took a b (Duration.Milliseconds r.1.1)],
        status := Status.running }
    | _, _ => { db := r.2, log := log1, status := Status.panicked }
  | _, _ => { st with status := Status.panicked }

/-- The work loop over the first ticks of the ticker: a round runs only while the
process is still running. -/
def workLoop {B : Type} [Ring B] (selectionIDs : List GoString) :
    List Tick → LoopState B → LoopState B
  | [], st => st
  | tk :: rest, st =>
    match st.status with
    | Status.running => workLoop selectionIDs rest (iteration selectionIDs tk st)
    | _ => st

/-- The function `runner.run` up to the ticks given: `fetchIDs` answers with the
selection ids or an error (then `log.Fatalf` ends the process). -/
def run {B : Type} [Ring B] (fetched : Except GoError (List GoString)) (ticks : List Tick)
    (db : Db GoString B) : LoopState B :=
  match fetched with
  | Except.error _ => { db := db, log := [], status := Status.exited }
  | Except.ok accountIDs => workLoop accountIDs ticks { db := db, log := [], status := Status.running }

/-! ## Concrete inputs -/

/-- An account id in UUID text form. -/
def idA : GoString := ascii "aaaaaaaa-0000-4000-8000-000000000001"

/-- A second account id. -/
def idB : GoString := ascii "bbbbbbbb-0000-4000-8000-000000000002"

/-- A third account id. -/
def idC : GoString := ascii "cccccccc-0000-4000-8000-000000000003"

/-- Two accounts seeded at 10000 each. -/
def twoAccounts : Table GoString Int :=
  [{ id := idA, balance := 10000 }, { id := idB, balance := 10000 }]

/-- Three accounts seeded at 10000 each. -/
def threeAccounts : Table GoString Int :=
  [{ id := idA, balance := 10000 }, { id := idB, balance := 10000 },
   { id := idC, balance := 10000 }]

/-- The database holding the two seeded accounts, no transaction open. -/
def twoAccountsDb : Db GoString Int := { table := twoAccounts, staged := [] }

/-- The transaction commits at the first attempt. -/
def commitsAtOnce : TxEnv :=
  { begin := Answer.ok, attempts := [{ exec := Answer.ok, release := Answer.ok }] }

/-- The statement is carried out, then the deadline passes before the commit. -/
def deadlineAtCommit : TxEnv :=
  { begin := Answer.ok,
    attempts := [{ exec := Answer.ok, release := Answer.fail GoError.deadlineExceeded }] }

/-- The first attempt meets a transient conflict at commit, the second one commits:
the body is executed twice. -/
def conflictThenCommit : TxEnv :=
  { begin := Answer.ok,
    attempts := [{ exec := Answer.ok, release := Answer.fail (GoError.pg "40001") },
                 { exec := Answer.ok, release := Answer.ok }] }

/-- The context is canceled before the transaction begins. -/
def canceledAtBegin : TxEnv :=
  { begin := Answer.fail GoError.canceled, attempts := [] }

/-- The deadline passes before the transaction begins. -/
def deadlineAtBegin : TxEnv :=
  { begin := Answer.fail GoError.deadlineExceeded, attempts := [] }

/-- A selection pool of two ids. -/
def poolAB : List GoString := [idA, idB]

/-- A selection pool of three ids. -/
def poolABC : List GoString := [idA, idB, idC]

/-- A tick whose transfer commits after 5998000 ns, a little under 6 ms. -/
def tickCommitted : Tick :=
  { rnd := fun _ => 0, amountRaw := 142, tx := commitsAtOnce, start := 1000, finish := 5999000 }

/-- A tick whose transfer fails with `context.Canceled` after 5 ms. -/
def tickCanceled : Tick :=
  { rnd := fun _ => 0, amountRaw := 142, tx := canceledAtBegin, start := 1000, finish := 5001000 }

/-- A tick whose transfer fails with `context.DeadlineExceeded` after 1000000999 ns,
a little over 1000 ms. -/
def tickTimedOut : Tick :=
  { rnd := fun _ => 0, amountRaw := 142, tx := deadlineAtBegin, start := 1000,
    finish := 1000001999 }

/-- The driver before the first tick, on the two seeded accounts. -/
def freshState : LoopState Int :=
  { db := twoAccountsDb, log := [], status := Status.running }

theorem updateRow_eq_ok {ι B : Type} [DecidableEq ι] [Ring B] (fromId toId : ι) (amount : Int) (r : Account ι B) :
    updateRow fromId toId amount r = Except.ok (updatedRow fromId toId amount r) := by
  unfold updateRow updatedRow whereClause caseExpr
  by_cases h1 : r.id = fromId
  · simp [h1]
  · by_cases h2 : r.id = toId
    · have h3 : ¬ toId = fromId := h2 ▸ h1
      simp [h1, h2, h3]
    · simp [h1, h2]

theorem mapM_ok_of_forall {α β ε : Type} (f : α → Except ε β) (g : α → β)
    (h : ∀ a, f a = Except.ok (g a)) (l : List α) :
    l.mapM f = Except.ok (l.map g) := by
  induction l with
  | nil => rfl
  | cons a l ih =>
    rw [List.mapM_cons, h a, ih]
    rfl

/-- The statement never raises an error: the `WHERE` clause selects only rows
for which one `WHEN` branch matches. -/
theorem stmt_eq_ok {ι B : Type} [DecidableEq ι] [Ring B] (fromId toId : ι) (amount : Int) (t : Table ι B) :
    stmt fromId toId amount t = Except.ok (t.map (updatedRow fromId toId amount)) :=
  mapM_ok_of_forall _ _ (updateRow_eq_ok fromId toId amount) t

theorem updatedRow_id {ι B : Type} [DecidableEq ι] [Ring B] (fromId toId : ι) (amount : Int) (r : Account ι B) :
    (updatedRow fromId toId amount r).id = r.id := by
  unfold updatedRow
  split_ifs <;> rfl

theorem ids_map_updatedRow {ι B : Type} [DecidableEq ι] [Ring B] (fromId toId : ι) (amount : Int) (t : Table ι B) :
    Table.ids (t.map (updatedRow fromId toId amount)) = Table.ids t := by
  unfold Table.ids
  rw [List.map_map]
  apply List.map_congr_left
  intro r _
  exact updatedRow_id fromId toId amount r

theorem balanceOf_map_updatedRow {ι B : Type} [DecidableEq ι] [Ring B] (fromId toId : ι) (amount : Int) (t : Table ι B) (x : ι) :
    Table.balanceOf (t.map (updatedRow fromId toId amount)) x =
      (t.find? (fun r => decide (r.id = x))).map
        (fun r => (updatedRow fromId toId amount r).balance) := by
  unfold Table.balanceOf
  induction t with
  | nil => rfl
  | cons r t ih =>
    simp only [List.map_cons, List.find?_cons, updatedRow_id]
    by_cases h : r.id = x
    · simp [h]
    · simp only [h, decide_False]
      exact ih

theorem find_id_eq {ι B : Type} [DecidableEq ι] (t : Table ι B) (x : ι) (r : Account ι B)
    (h : t.find? (fun r => decide (r.id = x)) = some r) : r.id = x := by
  have := List.find?_some h
  simpa using this

theorem balanceOf_eq_some_iff {ι B : Type} [DecidableEq ι] (t : Table ι B) (x : ι) (a : B) :
    t.balanceOf x = some a ↔
      ∃ r, t.find? (fun r => decide (r.id = x)) = some r ∧ r.balance = a := by
  unfold Table.balanceOf
  simp [Option.map_eq_some']

theorem balanceOf_isSome_of_mem {ι B : Type} [DecidableEq ι] (t : Table ι B) (x : ι) (h : x ∈ t.ids) :
    ∃ a, t.balanceOf x = some a := by
  unfold Table.ids at h
  obtain ⟨r, hr, hrx⟩ := List.mem_map.1 h
  cases hf : t.find? (fun r => decide (r.id = x)) with
  | none =>
    rw [List.find?_eq_none] at hf
    have := hf r hr
    simp [hrx] at this
  | some r' => exact ⟨r'.balance, by simp [Table.balanceOf, hf]⟩

theorem updatedRow_balance_from {ι B : Type} [DecidableEq ι] [Ring B] (fromId toId : ι) (amount : Int) (r : Account ι B)
    (h : r.id = fromId) :
    (updatedRow fromId toId amount r).balance = r.balance - (amount : B) := by
  simp [updatedRow, h]

theorem updatedRow_balance_to {ι B : Type} [DecidableEq ι] [Ring B] (fromId toId : ι) (amount : Int) (r : Account ι B)
    (hne : fromId ≠ toId) (h : r.id = toId) :
    (updatedRow fromId toId amount r).balance = r.balance + (amount : B) := by
  have h1 : ¬ r.id = fromId := fun h' => hne (h'.symm.trans h)
  have h3 : ¬ toId = fromId := fun h' => hne h'.symm
  simp [updatedRow, h, h3]

theorem updatedRow_other {ι B : Type} [DecidableEq ι] [Ring B] (fromId toId : ι) (amount : Int) (r : Account ι B)
    (h1 : r.id ≠ fromId) (h2 : r.id ≠ toId) :
    updatedRow fromId toId amount r = r := by
  simp [updatedRow, h1, h2]

theorem balanceOf_after_from {ι B : Type} [DecidableEq ι] [Ring B] (t : Table ι B) (fromId toId : ι) (amount : Int) (a : B)
    (h : t.balanceOf fromId = some a) :
    Table.balanceOf (t.map (updatedRow fromId toId amount)) fromId = some (a - (amount : B)) := by
  obtain ⟨r, hr, hra⟩ := (balanceOf_eq_some_iff t fromId a).1 h
  rw [balanceOf_map_updatedRow, hr, Option.map_some',
    updatedRow_balance_from fromId toId amount r (find_id_eq t fromId r hr), hra]

theorem balanceOf_after_to {ι B : Type} [DecidableEq ι] [Ring B] (t : Table ι B) (fromId toId : ι) (amount : Int) (b : B)
    (hne : fromId ≠ toId) (h : t.balanceOf toId = some b) :
    Table.balanceOf (t.map (updatedRow fromId toId amount)) toId = some (b + (amount : B)) := by
  obtain ⟨r, hr, hrb⟩ := (balanceOf_eq_some_iff t toId b).1 h
  rw [balanceOf_map_updatedRow, hr, Option.map_some',
    updatedRow_balance_to fromId toId amount r hne (find_id_eq t toId r hr), hrb]

theorem balanceOf_after_other {ι B : Type} [DecidableEq ι] [Ring B] (t : Table ι B) (fromId toId : ι) (amount : Int) (x : ι)
    (h1 : x ≠ fromId) (h2 : x ≠ toId) :
    Table.balanceOf (t.map (updatedRow fromId toId amount)) x = t.balanceOf x := by
  rw [balanceOf_map_updatedRow]
  unfold Table.balanceOf
  cases hf : t.find? (fun r => decide (r.id = x)) with
  | none => rfl
  | some r =>
    have hx := find_id_eq t x r hf
    rw [Option.map_some', Option.map_some',
      updatedRow_other fromId toId amount r (hx ▸ h1) (hx ▸ h2)]

theorem total_cons {ι B : Type} [Ring B] (r : Account ι B) (t : Table ι B) :
    Table.total (r :: t) = r.balance + Table.total t := by
  simp [Table.total]

theorem total_map_of_not_mem {ι B : Type} [DecidableEq ι] [Ring B] (fromId toId : ι) (amount : Int) (t : Table ι B)
    (h1 : fromId ∉ t.ids) (h2 : toId ∉ t.ids) :
    t.map (updatedRow fromId toId amount) = t := by
  induction t with
  | nil => rfl
  | cons r t ih =>
    simp only [Table.ids, List.map_cons, List.mem_cons, not_or] at h1 h2
    rw [List.map_cons, updatedRow_other fromId toId amount r (Ne.symm h1.1) (Ne.symm h2.1),
      ih h1.2 h2.2]

/-- With distinct ids in the table, the statement takes `amount` off the total
if the row `fromId` exists and adds it if the row `toId` exists. -/
theorem total_map_updatedRow {ι B : Type} [DecidableEq ι] [Ring B] (fromId toId : ι) (amount : Int) (hne : fromId ≠ toId)
    (t : Table ι B) (hwf : t.WellFormed) :
    Table.total (t.map (updatedRow fromId toId amount)) =
      Table.total t - (if fromId ∈ t.ids then (amount : B) else 0)
        + (if toId ∈ t.ids then (amount : B) else 0) := by
  induction t with
  | nil => simp [Table.total, Table.ids]
  | cons r t ih =>
    have hnd : r.id ∉ Table.ids t ∧ (Table.ids t).Nodup := by
      simpa [Table.WellFormed, Table.ids] using hwf
    have ih1 := ih hnd.2
    have hmem : ∀ x, x ∈ Table.ids (r :: t) ↔ x = r.id ∨ x ∈ Table.ids t := by
      intro x
      simp [Table.ids]
    rw [List.map_cons, total_cons, total_cons, ih1]
    by_cases h1 : r.id = fromId
    · have hf : fromId ∉ Table.ids t := h1 ▸ hnd.1
      have ht : ¬ toId = r.id := fun h => hne (h1.symm.trans h.symm)
      rw [updatedRow_balance_from fromId toId amount r h1]
      simp only [hmem, h1, hf, ht, if_true, if_false, true_or, false_or, or_false]
      have ht2 : ¬ toId = fromId := fun h => hne h.symm
      simp only [ht2, false_or]
      abel
    · by_cases h2 : r.id = toId
      · have htn : toId ∉ Table.ids t := h2 ▸ hnd.1
        have hf : ¬ fromId = r.id := fun h => h1 h.symm
        rw [updatedRow_balance_to fromId toId amount r hne h2]
        simp only [hmem, hf, htn, h2, false_or, true_or, or_false, if_true, if_false]
        have hf2 : ¬ fromId = toId := hne
        simp only [hf2, false_or]
        abel
      · have hf : ¬ fromId = r.id := fun h => h1 h.symm
        have ht : ¬ toId = r.id := fun h => h2 h.symm
        rw [updatedRow_other fromId toId amount r h1 h2]
        simp only [hmem, hf, ht, false_or]
        abel

theorem total_conserved {ι B : Type} [DecidableEq ι] [Ring B] (fromId toId : ι) (amount : Int) (hne : fromId ≠ toId)
    (t : Table ι B) (hwf : t.WellFormed) (hf : fromId ∈ t.ids) (ht : toId ∈ t.ids) :
    Table.total (t.map (updatedRow fromId toId amount)) = Table.total t := by
  rw [total_map_updatedRow fromId toId amount hne t hwf, if_pos hf, if_pos ht]
  abel

theorem wellFormed_map_updatedRow {ι B : Type} [DecidableEq ι] [Ring B] (fromId toId : ι) (amount : Int) (t : Table ι B)
    (hwf : t.WellFormed) : Table.WellFormed (t.map (updatedRow fromId toId amount)) := by
  unfold Table.WellFormed
  rw [ids_map_updatedRow]
  exact hwf

/-- A sequence of transfers between distinct present accounts commits and keeps
ids and total. -/
theorem commitAll_conserves {ι B : Type} [DecidableEq ι] [Ring B] (xs : List (Transfer ι)) :
    ∀ (t : Table ι B), t.WellFormed →
      (∀ x ∈ xs, x.fromId ≠ x.toId ∧ x.fromId ∈ t.ids ∧ x.toId ∈ t.ids) →
      ∃ t', commitAll xs t = Except.ok t' ∧ t'.ids = t.ids ∧ t'.total = t.total := by
  induction xs with
  | nil =>
    intro t _ _
    exact ⟨t, rfl, rfl, rfl⟩
  | cons x xs ih =>
    intro t hwf hxs
    have hx := hxs x (List.mem_cons_self x xs)
    have hids := ids_map_updatedRow x.fromId x.toId x.amount t
    obtain ⟨t', h1, h2, h3⟩ := ih (t.map (updatedRow x.fromId x.toId x.amount))
      (wellFormed_map_updatedRow x.fromId x.toId x.amount t hwf)
      (fun y hy => by
        have := hxs y (List.mem_cons_of_mem x hy)
        rw [hids]
        exact this)
    refine ⟨t', ?_, h2.trans hids, ?_⟩
    · simp only [commitAll, stmt_eq_ok]
      exact h1
    · rw [h3]
      exact total_conserved x.fromId x.toId x.amount hx.1 t hwf hx.2.1 hx.2.2

theorem seed_empty {ι B : Type} [DecidableEq ι] [Ring B] (fresh : List ι) (h : fresh.Nodup) :
    seed fresh ([] : Table ι B) =
      Except.ok (fresh.map (fun i => ({ id := i, balance := (10000 : B) } : Account ι B))) := by
  simp [seed, Table.ids, h]

theorem seeded_ids {ι B : Type} [Ring B] (fresh : List ι) :
    Table.ids (fresh.map (fun i => ({ id := i, balance := (10000 : B) } : Account ι B))) = fresh := by
  simp [Table.ids, List.map_map, Function.comp_def]

theorem seeded_total {ι B : Type} [Ring B] (fresh : List ι) :
    Table.total (fresh.map (fun i => ({ id := i, balance := (10000 : B) } : Account ι B)))
      = (fresh.length : B) * 10000 := by
  induction fresh with
  | nil => simp [Table.total]
  | cons i l ih =>
    rw [List.map_cons, total_cons, ih]
    rw [List.length_cons, Nat.cast_succ, add_mul, one_mul, add_comm]

theorem forall₂_map_updatedRow {ι B : Type} [DecidableEq ι] [Ring B]
    (fromId toId : ι) (amount : Int) (t : Table ι B) :
    List.Forall₂ (fun r r' => r'.id = r.id ∧ (r.id ≠ fromId → r.id ≠ toId → r' = r))
      t (t.map (updatedRow fromId toId amount)) := by
  induction t with
  | nil => exact List.Forall₂.nil
  | cons r t ih =>
    exact List.Forall₂.cons
      ⟨updatedRow_id fromId toId amount r, updatedRow_other fromId toId amount r⟩ ih

/-! ## The transfer statement: checked properties -/

/-- C1. Conservation. For a table with distinct ids and `from != to` both present,
the statement of `performTransfer` commits and leaves the sum of all balances
unchanged, and `balance(from) + balance(to)` unchanged; and from the seeded table
(every account at 10000) any finite sequence of such transfers commits and
leaves the total at its seeded value, `rowCount * 10000`. -/
theorem transfer_conserves_total {ι B : Type} [DecidableEq ι] [Ring B] :
    (∀ (t : Table ι B) (fromId toId : ι) (amount : Int),
        t.WellFormed → fromId ≠ toId → fromId ∈ t.ids → toId ∈ t.ids →
        ∃ t' a b a' b', stmt fromId toId amount t = Except.ok t' ∧
          Table.total t' = Table.total t ∧
          t.balanceOf fromId = some a ∧ t.balanceOf toId = some b ∧
          Table.balanceOf t' fromId = some a' ∧ Table.balanceOf t' toId = some b' ∧
          a' + b' = a + b) ∧
    (∀ (fresh : List ι) (xs : List (Transfer ι)), fresh.Nodup →
        (∀ x ∈ xs, x.fromId ≠ x.toId ∧ x.fromId ∈ fresh ∧ x.toId ∈ fresh) →
        ∃ t0 t', seed fresh ([] : Table ι B) = Except.ok t0 ∧
          commitAll xs t0 = Except.ok t' ∧
          Table.total t' = Table.total t0 ∧
          Table.total t0 = (fresh.length : B) * 10000) := by
  constructor
  · intro t fromId toId amount hwf hne hf ht
    obtain ⟨a, ha⟩ := balanceOf_isSome_of_mem t fromId hf
    obtain ⟨b, hb⟩ := balanceOf_isSome_of_mem t toId ht
    refine ⟨t.map (updatedRow fromId toId amount), a, b, a - (amount : B), b + (amount : B),
      stmt_eq_ok fromId toId amount t,
      total_conserved fromId toId amount hne t hwf hf ht, ha, hb,
      balanceOf_after_from t fromId toId amount a ha,
      balanceOf_after_to t fromId toId amount b hne hb, ?_⟩
    abel
  · intro fresh xs hnd hxs
    have hwf : Table.WellFormed
        (fresh.map (fun i => ({ id := i, balance := (10000 : B) } : Account ι B))) := by
      unfold Table.WellFormed
      rw [seeded_ids]
      exact hnd
    obtain ⟨t', h1, _, h3⟩ := commitAll_conserves xs _ hwf (fun x hx => by
      rw [seeded_ids]
      exact hxs x hx)
    exact ⟨_, t', seed_empty fresh hnd, h1, h3, seeded_total fresh⟩

/-- C1, on the seeded tables: 100 from A to B on two accounts keeps the total at 20000,
and three transfers among three accounts keep it at 30000. -/
theorem transfer_conserves_total_witness :
    (∃ t' a b a' b', stmt idA idB 100 twoAccounts = Except.ok t' ∧
        Table.total t' = Table.total twoAccounts ∧
        twoAccounts.balanceOf idA = some a ∧ twoAccounts.balanceOf idB = some b ∧
        Table.balanceOf t' idA = some a' ∧ Table.balanceOf t' idB = some b' ∧
        a' + b' = a + b) ∧
    (∃ t0 t', seed [idA, idB, idC] ([] : Table GoString Int) = Except.ok t0 ∧
        commitAll [⟨idA, idB, 100⟩, ⟨idB, idC, 250⟩, ⟨idC, idA, 7⟩] t0 = Except.ok t' ∧
        Table.total t' = Table.total t0 ∧
        Table.total t0 = (([idA, idB, idC] : List GoString).length : Int) * 10000) :=
  ⟨(@transfer_conserves_total GoString Int _ _).1 twoAccounts idA idB 100
      (by unfold Table.WellFormed; decide) (by decide) (by decide) (by decide),
   (@transfer_conserves_total GoString Int _ _).2 [idA, idB, idC]
      [⟨idA, idB, 100⟩, ⟨idB, idC, 250⟩, ⟨idC, idA, 7⟩] (by decide) (by decide)⟩

/-- C2. For `from != to` both present, the statement of `performTransfer` commits and
sets `balance(from)` to its previous value minus `amount` and `balance(to)` to its
previous value plus `amount`. -/
theorem stmt_moves_amount {ι B : Type} [DecidableEq ι] [Ring B]
    (t : Table ι B) (fromId toId : ι) (amount : Int) (a b : B)
    (hne : fromId ≠ toId)
    (hfrom : t.balanceOf fromId = some a) (hto : t.balanceOf toId = some b) :
    ∃ t', stmt fromId toId amount t = Except.ok t' ∧
      Table.balanceOf t' fromId = some (a - (amount : B)) ∧
      Table.balanceOf t' toId = some (b + (amount : B)) :=
  ⟨t.map (updatedRow fromId toId amount), stmt_eq_ok fromId toId amount t,
    balanceOf_after_from t fromId toId amount a hfrom,
    balanceOf_after_to t fromId toId amount b hne hto⟩

/-- C2, the scenario of the specification: two accounts seeded at 10000 each, a
transfer of 100 from A to B gives `balance(A) = 9900` and `balance(B) = 10100`. -/
theorem stmt_moves_amount_witness :
    idA ≠ idB ∧ twoAccounts.balanceOf idA = some 10000 ∧
    twoAccounts.balanceOf idB = some 10000 ∧
    ∃ t', stmt idA idB 100 twoAccounts = Except.ok t' ∧
      Table.balanceOf t' idA = some 9900 ∧ Table.balanceOf t' idB = some 10100 :=
  ⟨by decide, by decide, by decide,
    stmt_moves_amount twoAccounts idA idB 100 10000 10000 (by decide) (by decide) (by decide)⟩

/-- C5, as stated, fails: on two accounts at 10000 the statement with
`from = to = A` and amount 100 commits and leaves `balance(A) = 9900`, not 10000. -/
theorem self_transfer_changes_balance :
    twoAccounts.balanceOf idA = some 10000 ∧
    stmt idA idA 100 twoAccounts =
      Except.ok [{ id := idA, balance := 9900 }, { id := idB, balance := 10000 }] ∧
    Table.balanceOf [{ id := idA, balance := (9900 : Int) }, { id := idB, balance := 10000 }] idA
      = some 9900 ∧
    (9900 : Int) ≠ 10000 :=
  ⟨by decide, rfl, by decide, by decide⟩

/-- C5, amended. With `from = to = x` present in the table, the statement raises no
error and sets `balance(x)` to its previous value minus `amount` (the first
`WHEN` branch decides). -/
theorem self_transfer_subtracts_amount {ι B : Type} [DecidableEq ι] [Ring B]
    (t : Table ι B) (x : ι) (amount : Int) (a : B) (hx : t.balanceOf x = some a) :
    ∃ t', stmt x x amount t = Except.ok t' ∧
      Table.balanceOf t' x = some (a - (amount : B)) :=
  ⟨t.map (updatedRow x x amount), stmt_eq_ok x x amount t,
    balanceOf_after_from t x x amount a hx⟩

/-- C5 amended, on two accounts at 10000: a self-transfer of 100 on A leaves 9900. -/
theorem self_transfer_subtracts_amount_witness :
    twoAccounts.balanceOf idA = some 10000 ∧
    ∃ t', stmt idA idA 100 twoAccounts = Except.ok t' ∧
      Table.balanceOf t' idA = some 9900 :=
  ⟨by decide, self_transfer_subtracts_amount twoAccounts idA 100 10000 (by decide)⟩

/-- C6. Frame. For every table and every `from`, `to`, `amount` the statement commits,
the list of ids is unchanged (no row inserted or deleted), every id other than
`from` and `to` keeps its balance, and row by row only rows whose id is `from`
or `to` differ from the row before. -/
theorem stmt_frame {ι B : Type} [DecidableEq ι] [Ring B]
    (t : Table ι B) (fromId toId : ι) (amount : Int) :
    ∃ t', stmt fromId toId amount t = Except.ok t' ∧
      Table.ids t' = Table.ids t ∧
      (∀ x, x ≠ fromId → x ≠ toId → Table.balanceOf t' x = t.balanceOf x) ∧
      List.Forall₂ (fun r r' => r'.id = r.id ∧ (r.id ≠ fromId → r.id ≠ toId → r' = r)) t t' :=
  ⟨t.map (updatedRow fromId toId amount), stmt_eq_ok fromId toId amount t,
    ids_map_updatedRow fromId toId amount t,
    fun x h1 h2 => balanceOf_after_other t fromId toId amount x h1 h2,
    forall₂_map_updatedRow fromId toId amount t⟩

/-- C6, on three accounts: a transfer from A to B leaves the row of C as it was. -/
theorem stmt_frame_witness :
    idC ≠ idA ∧ idC ≠ idB ∧
    ∃ t', stmt idA idB 100 threeAccounts = Except.ok t' ∧
      Table.ids t' = Table.ids threeAccounts ∧
      Table.balanceOf t' idC = threeAccounts.balanceOf idC := by
  obtain ⟨t', h1, h2, h3, _⟩ := stmt_frame threeAccounts idA idB 100
  exact ⟨by decide, by decide, t', h1, h2, h3 idC (by decide) (by decide)⟩

/-! ## `lo.Samples` -/

theorem samplesLoop_succ {α : Type} (rnd : Nat → Nat) (size fuel i : Nat) (cp : List α)
    (x l : α) (hi : i < size) (hx : cp[rnd i % (size - i)]? = some x)
    (hl : cp[size - i - 1]? = some l) :
    samplesLoop rnd size (fuel + 1) i cp =
      x :: samplesLoop rnd size fuel (i + 1)
        ((cp.set (rnd i % (size - i)) l).take (size - i - 1)) := by
  rw [samplesLoop]
  simp only [hi, if_true, hx, hl]

theorem samplesLoop_stop {α : Type} (rnd : Nat → Nat) (size fuel i : Nat) (cp : List α)
    (hi : ¬ i < size) : samplesLoop rnd size fuel i cp = [] := by
  cases fuel with
  | zero => rfl
  | succ k =>
    rw [samplesLoop]
    simp only [hi, if_false]

/-- While the loop runs, both reads of the copy are in range. -/
theorem copy_reads {α : Type} (rnd : Nat → Nat) (size i : Nat) (cp : List α)
    (hlen : cp.length = size - i) (hi : i < size) :
    ∃ x l, cp[rnd i % (size - i)]? = some x ∧ cp[size - i - 1]? = some l := by
  have hpos : 0 < size - i := Nat.sub_pos_of_lt hi
  have h1 : rnd i % (size - i) < cp.length := by
    rw [hlen]
    exact Nat.mod_lt _ hpos
  have h2 : size - i - 1 < cp.length := by omega
  exact ⟨cp[rnd i % (size - i)], cp[size - i - 1],
    List.getElem?_eq_getElem h1, List.getElem?_eq_getElem h2⟩

theorem mem_of_getElem?_eq_some {α : Type} (cp : List α) (i : Nat) (x : α)
    (h : cp[i]? = some x) : x ∈ cp :=
  List.mem_iff_getElem?.2 ⟨i, h⟩

theorem mem_of_mem_take_set {α : Type} (cp : List α) (i k : Nat) (l y : α) (hl : l ∈ cp)
    (hy : y ∈ (cp.set i l).take k) : y ∈ cp := by
  rcases List.mem_or_eq_of_mem_set (List.mem_of_mem_take hy) with h | h
  · exact h
  · exact h ▸ hl

/-- The element picked in a round is no longer in the copy after the round. -/
theorem not_mem_take_set {α : Type} (cp : List α) (hnd : cp.Nodup) (i : Nat) (x l : α)
    (hx : cp[i]? = some x) (hl : cp[cp.length - 1]? = some l) :
    x ∉ (cp.set i l).take (cp.length - 1) := by
  intro hmem
  obtain ⟨j, hj⟩ := List.mem_iff_getElem?.1 hmem
  have hi : i < cp.length := (List.getElem?_eq_some.1 hx).1
  rw [List.getElem?_take] at hj
  by_cases hjlt : j < cp.length - 1
  · rw [if_pos hjlt, List.getElem?_set] at hj
    by_cases hij : i = j
    · rw [if_pos hij, if_pos hi] at hj
      have hxl : cp[i]? = cp[cp.length - 1]? := by rw [hx, hl, hj]
      have := List.getElem?_inj hi hnd hxl
      omega
    · rw [if_neg hij] at hj
      exact hij (List.getElem?_inj hi hnd (hx.trans hj.symm))
  · rw [if_neg hjlt] at hj
    exact Option.noConfusion hj

theorem length_take_set {α : Type} (cp : List α) (i k : Nat) (l : α) (h : k ≤ cp.length) :
    ((cp.set i l).take k).length = k := by
  rw [List.length_take, List.length_set]
  exact Nat.min_eq_left h

/-- The result of `lo.Samples` has `min(count, len(collection))` elements. -/
theorem samplesLoop_length {α : Type} (rnd : Nat → Nat) (size : Nat) :
    ∀ (fuel i : Nat) (cp : List α), cp.length = size - i →
      (samplesLoop rnd size fuel i cp).length = min fuel (size - i) := by
  intro fuel
  induction fuel with
  | zero =>
    intro i cp _
    simp [samplesLoop]
  | succ k ih =>
    intro i cp hlen
    by_cases hi : i < size
    · obtain ⟨x, l, hx, hl⟩ := copy_reads rnd size i cp hlen hi
      rw [samplesLoop_succ rnd size k i cp x l hi hx hl, List.length_cons,
        ih (i + 1) _ (by rw [length_take_set cp _ _ l (by omega)]; omega)]
      omega
    · rw [samplesLoop_stop rnd size (k + 1) i cp hi]
      simp only [List.length_nil]
      omega

/-- Every sampled element comes from the collection. -/
theorem samplesLoop_subset {α : Type} (rnd : Nat → Nat) (size : Nat) :
    ∀ (fuel i : Nat) (cp : List α), cp.length = size - i →
      ∀ y ∈ samplesLoop rnd size fuel i cp, y ∈ cp := by
  intro fuel
  induction fuel with
  | zero =>
    intro i cp _ y hy
    simp [samplesLoop] at hy
  | succ k ih =>
    intro i cp hlen y hy
    by_cases hi : i < size
    · obtain ⟨x, l, hx, hl⟩ := copy_reads rnd size i cp hlen hi
      rw [samplesLoop_succ rnd size k i cp x l hi hx hl, List.mem_cons] at hy
      rcases hy with rfl | hy
      · exact mem_of_getElem?_eq_some cp _ _ hx
      · have hy1 := ih (i + 1) _ (by rw [length_take_set cp _ _ l (by omega)]; omega) y hy
        exact mem_of_mem_take_set cp _ _ l y (mem_of_getElem?_eq_some cp _ _ hl) hy1
    · rw [samplesLoop_stop rnd size (k + 1) i cp hi] at hy
      simp at hy

theorem samples_length {α : Type} (rnd : Nat → Nat) (pool : List α) (count : Nat) :
    (Samples rnd pool count).length = min count pool.length := by
  unfold Samples
  rw [samplesLoop_length rnd pool.length count 0 pool (by omega)]
  simp

theorem samples_subset {α : Type} (rnd : Nat → Nat) (pool : List α) (count : Nat) :
    ∀ y ∈ Samples rnd pool count, y ∈ pool :=
  samplesLoop_subset rnd pool.length count 0 pool (by omega)

/-- From a pool of at least two entries `lo.Samples(pool, 2)` returns exactly two. -/
theorem samples_two {α : Type} (rnd : Nat → Nat) (pool : List α) (hlen : 2 ≤ pool.length) :
    ∃ x0 x1, Samples rnd pool 2 = [x0, x1] ∧ x0 ∈ pool ∧ x1 ∈ pool := by
  have h := samples_length rnd pool 2
  rw [Nat.min_eq_left hlen] at h
  match hs : Samples rnd pool 2, h with
  | [x0, x1], _ =>
    have hsub := samples_subset rnd pool 2
    rw [hs] at hsub
    exact ⟨x0, x1, rfl, hsub x0 (by simp), hsub x1 (by simp)⟩

/-- From a pool of pairwise distinct entries the two sampled entries differ. -/
theorem samples_two_ne {α : Type} (rnd : Nat → Nat) (pool : List α) (hnd : pool.Nodup)
    (hlen : 2 ≤ pool.length) (x0 x1 : α) (h : Samples rnd pool 2 = [x0, x1]) : x0 ≠ x1 := by
  unfold Samples at h
  obtain ⟨x, l, hx, hl⟩ := copy_reads rnd pool.length 0 pool (by omega) (by omega)
  rw [samplesLoop_succ rnd pool.length 1 0 pool x l (by omega) hx hl] at h
  have hx0 : x = x0 := by
    have := congrArg List.head? h
    simpa using this
  have htail := congrArg List.tail h
  simp only [List.tail_cons] at htail
  have hmem : x1 ∈ (pool.set (rnd 0 % (pool.length - 0)) l).take (pool.length - 0 - 1) := by
    apply samplesLoop_subset rnd pool.length 1 (0 + 1) _
      (by rw [length_take_set pool _ _ l (by omega)]; omega)
    rw [htail]
    simp
  have hnot := not_mem_take_set pool hnd _ x l hx (by simpa using hl)
  intro h01
  apply hnot
  rw [hx0, h01]
  simpa using hmem

/-! ## The retry helper and the two handles -/

theorem rollback_of_staged_nil {ι B : Type} (db : Db ι B) (h : db.staged = []) :
    db.rollback = db := by
  cases db
  simp only [Db.rollback] at *
  simp [h]

/-- Through the transaction handle the retry loop is all-or-nothing and applies the
statement once: on an error the database is as before, on success the table is
the one a single statement produces. -/
theorem retryLoop_onTx {ι B : Type} [DecidableEq ι] [Ring B]
    (fromId toId : ι) (amount : Int) (attempts : List Attempt) :
    ∀ (db : Db ι B), db.staged = [] →
      ((retryLoop (transferBodyOnTx fromId toId amount) attempts db).1 ≠ none →
        (retryLoop (transferBodyOnTx fromId toId amount) attempts db).2 = db) ∧
      ((retryLoop (transferBodyOnTx fromId toId amount) attempts db).1 = none →
        (retryLoop (transferBodyOnTx fromId toId amount) attempts db).2 =
          { table := db.table.map (updatedRow fromId toId amount), staged := [] }) := by
  induction attempts with
  | nil =>
    intro db hs
    simp [retryLoop, rollback_of_staged_nil db hs]
  | cons a rest ih =>
    intro db hs
    have hrb : db.rollback = db := rollback_of_staged_nil db hs
    obtain ⟨ex, rel⟩ := a
    cases ex with
    | fail e =>
      by_cases hr : errIsRetryable e = true
      · simpa [retryLoop, transferBodyOnTx, Db.exec, hr, hrb] using ih db hs
      · simp [retryLoop, transferBodyOnTx, Db.exec, hr, hrb]
    | ok =>
      have hrb2 : ({ table := db.table, staged := db.staged ++
          [{ fromId := fromId, toId := toId, amount := amount }] } : Db ι B).rollback = db := by
        cases db
        simp only [Db.rollback] at *
        simp [hs]
      cases rel with
      | ok =>
        simp [retryLoop, transferBodyOnTx, Db.exec, Db.commit, hs, commitAll, stmt_eq_ok]
      | fail e =>
        by_cases hr : errIsRetryable e = true
        · simpa [retryLoop, transferBodyOnTx, Db.exec, hr, hrb2] using ih db hs
        · simp [retryLoop, transferBodyOnTx, Db.exec, hr, hrb2]

/-- Comparison: had the body used the transaction handle, `ExecuteTx` would be atomic. -/
theorem executeTx_onTx_atomic {ι B : Type} [DecidableEq ι] [Ring B]
    (env : TxEnv) (fromId toId : ι) (amount : Int) (db : Db ι B) (hs : db.staged = [])
    (herr : (ExecuteTx env (transferBodyOnTx fromId toId amount) db).1 ≠ none) :
    (ExecuteTx env (transferBodyOnTx fromId toId amount) db).2 = db := by
  unfold ExecuteTx at *
  cases hb : env.begin with
  | fail e => simp [hb]
  | ok =>
    simp only [hb] at herr ⊢
    exact (retryLoop_onTx fromId toId amount env.attempts db hs).1 herr

/-- Comparison: had the body used the transaction handle, a committed `ExecuteTx` would
apply the statement exactly once, however many attempts were restarted. -/
theorem executeTx_onTx_once {ι B : Type} [DecidableEq ι] [Ring B]
    (env : TxEnv) (fromId toId : ι) (amount : Int) (db : Db ι B) (hs : db.staged = [])
    (hok : (ExecuteTx env (transferBodyOnTx fromId toId amount) db).1 = none) :
    (ExecuteTx env (transferBodyOnTx fromId toId amount) db).2 =
      { table := db.table.map (updatedRow fromId toId amount), staged := [] } := by
  unfold ExecuteTx at *
  cases hb : env.begin with
  | fail e => simp [hb] at hok
  | ok =>
    simp only [hb] at hok ⊢
    exact (retryLoop_onTx fromId toId amount env.attempts db hs).2 hok

/-- C3, on the code: the statement is carried out through the pool, the deadline passes
before the commit; `performTransfer` returns `context.DeadlineExceeded` and the
table has changed (A at 9900, B at 10100). -/
theorem performTransfer_error_table_changed :
    performTransfer deadlineAtCommit 0 1000000000 twoAccountsDb idA idB 100 =
      ((1000000000, some GoError.deadlineExceeded),
        { table := [{ id := idA, balance := 9900 }, { id := idB, balance := 10100 }],
          staged := [] }) ∧
    twoAccountsDb.table = [{ id := idA, balance := 10000 }, { id := idB, balance := 10000 }] := by
  decide

/-- C4, on the code: one attempt restarted after a conflict at commit, then a commit; the
body ran twice and the amount was applied twice (A at 9800, B at 10200), where
a single committed attempt gives A at 9900 and B at 10100. -/
theorem performTransfer_retry_applies_twice :
    performTransfer conflictThenCommit 0 1 twoAccountsDb idA idB 100 =
      ((1, none),
        { table := [{ id := idA, balance := 9800 }, { id := idB, balance := 10200 }],
          staged := [] }) ∧
    performTransfer commitsAtOnce 0 1 twoAccountsDb idA idB 100 =
      ((1, none),
        { table := [{ id := idA, balance := 9900 }, { id := idB, balance := 10100 }],
          staged := [] }) := by
  decide

/-! ## The work loop -/

theorem slice_first8 (s : GoString) (h : 8 ≤ s.length) : slice s 0 8 = some (s.take 8) := by
  simp [slice, h]

/-- The round of the loop once the two sampled ids are known and long enough. -/
theorem iteration_of_samples {B : Type} [Ring B] (pool : List GoString) (tk : Tick)
    (st : LoopState B) (id0 id1 : GoString) (hs : Samples tk.rnd pool 2 = [id0, id1])
    (h0 : 8 ≤ id0.length) (h1 : 8 ≤ id1.length) :
    iteration pool tk st =
      { db := (performTransfer tk.tx tk.start tk.finish st.db id0 id1
                ((tk.amountRaw % 100 : Nat) : Int)).2,
        log := st.log ++
          errorLines (performTransfer tk.tx tk.start tk.finish st.db id0 id1
                ((tk.amountRaw % 100 : Nat) : Int)).1.2 ++
          [LogLine.took (id0.take 8) (id1.take 8)
            (Duration.Milliseconds (performTransfer tk.tx tk.start tk.finish st.db id0 id1
                ((tk.amountRaw % 100 : Nat) : Int)).1.1)],
        status := Status.running } := by
  unfold iteration
  simp only [hs, List.getElem?_cons_zero, List.getElem?_cons_succ, slice_first8 id0 h0,
    slice_first8 id1 h1]

theorem iteration_db {B : Type} [Ring B] (pool : List GoString) (tk : Tick)
    (st : LoopState B) (id0 id1 : GoString) (hs : Samples tk.rnd pool 2 = [id0, id1]) :
    (iteration pool tk st).db =
      (performTransfer tk.tx tk.start tk.finish st.db id0 id1
        ((tk.amountRaw % 100 : Nat) : Int)).2 := by
  unfold iteration
  simp only [hs, List.getElem?_cons_zero, List.getElem?_cons_succ]
  split <;> rfl

theorem workLoop_cons_running {B : Type} [Ring B] (pool : List GoString) (tk : Tick)
    (rest : List Tick) (st : LoopState B) (h : st.status = Status.running) :
    workLoop pool (tk :: rest) st = workLoop pool rest (iteration pool tk st) := by
  rw [workLoop]
  simp only [h]

theorem errorLines_not_took (err : Option GoError) : ∀ l ∈ errorLines err, l.isTook = false := by
  intro l hl
  cases err with
  | none => simp [errorLines] at hl
  | some e =>
    simp only [errorLines] at hl
    split_ifs at hl
    · rw [List.mem_singleton] at hl
      rw [hl]
      rfl
    · simp at hl

/-- With fewer than two ids in the pool the read `ids[1]` is out of range and the round
panics: the bound on the pool size is what makes it valid. -/
theorem iteration_panics_of_short_pool {B : Type} [Ring B] (pool : List GoString) (tk : Tick)
    (st : LoopState B) (h : pool.length < 2) :
    (iteration pool tk st).status = Status.panicked := by
  have hlen := samples_length tk.rnd pool 2
  have h1 : (Samples tk.rnd pool 2)[1]? = none := by
    apply List.getElem?_eq_none
    omega
  unfold iteration
  simp only [h1]
  split
  · next h0 h1' => exact Option.noConfusion h1'
  · rfl

/-- C7, as stated, fails: `performTransfer` returns `context.Canceled`, and the round
logs the "took" line only, no "error: ..." line. -/
theorem canceled_error_not_logged :
    (performTransfer tickCanceled.tx tickCanceled.start tickCanceled.finish freshState.db
        idA idB 42).1.2 = some GoError.canceled ∧
    Samples tickCanceled.rnd poolAB 2 = [idA, idB] ∧
    (iteration poolAB tickCanceled freshState).log =
      [LogLine.took (ascii "aaaaaaaa") (ascii "bbbbbbbb") 5] ∧
    (iteration poolAB tickCanceled freshState).log.all (fun l => !l.isError) = true := by
  decide

/-- C7, amended. In a round of the loop over a pool of ids of at least 8 bytes, with
`ids[0]`, `ids[1]` the two sampled ids, for every non-nil error `e` returned by `performTransfer`: the round
logs `e` in an "error: ..." line exactly when `e` is not `context.Canceled`
(nor wraps it), so a `context.DeadlineExceeded` and any other error are logged
and a cancellation is not; in every case the "took" line follows, the process
keeps running, and the next tick runs its round. -/
theorem iteration_error_policy {B : Type} [Ring B] (pool : List GoString) (tk next : Tick)
    (rest : List Tick) (st : LoopState B) (id0 id1 : GoString) (e : GoError)
    (h8 : ∀ x ∈ pool, 8 ≤ x.length)
    (hrun : st.status = Status.running)
    (hs : Samples tk.rnd pool 2 = [id0, id1])
    (herr : (performTransfer tk.tx tk.start tk.finish st.db id0 id1
        ((tk.amountRaw % 100 : Nat) : Int)).1.2 = some e) :
    (iteration pool tk st).status = Status.running ∧
    (errorsIs e GoError.canceled = false →
      (iteration pool tk st).log = st.log ++ [LogLine.error e] ++
        [LogLine.took (id0.take 8) (id1.take 8)
          (Duration.Milliseconds (timeSince tk.finish tk.start))]) ∧
    (errorsIs e GoError.canceled = true →
      (iteration pool tk st).log = st.log ++
        [LogLine.took (id0.take 8) (id1.take 8)
          (Duration.Milliseconds (timeSince tk.finish tk.start))]) ∧
    workLoop pool (tk :: next :: rest) st =
      workLoop pool rest (iteration pool next (iteration pool tk st)) := by
  have hsub := samples_subset tk.rnd pool 2
  rw [hs] at hsub
  have h0 : 8 ≤ id0.length := h8 id0 (hsub id0 (by simp))
  have h1 : 8 ≤ id1.length := h8 id1 (hsub id1 (by simp))
  have hit := iteration_of_samples pool tk st id0 id1 hs h0 h1
  have hst : (iteration pool tk st).status = Status.running := by rw [hit]
  refine ⟨hst, ?_, ?_, ?_⟩
  · intro hc
    rw [hit, herr]
    simp [errorLines, hc, performTransfer]
  · intro hc
    rw [hit, herr]
    simp [errorLines, hc, performTransfer]
  · rw [workLoop_cons_running pool tk (next :: rest) st hrun,
      workLoop_cons_running pool next rest _ hst]

/-- C7 amended, on a timeout: the deadline passes, the round logs
"error: context deadline exceeded" and the "took" line, and keeps running. -/
theorem iteration_error_policy_witness :
    (iteration poolAB tickTimedOut freshState).status = Status.running ∧
    (iteration poolAB tickTimedOut freshState).log =
      [] ++ [LogLine.error GoError.deadlineExceeded] ++
        [LogLine.took (idA.take 8) (idB.take 8)
          (Duration.Milliseconds (timeSince tickTimedOut.finish tickTimedOut.start))] ∧
    workLoop poolAB [tickTimedOut, tickCommitted] freshState =
      workLoop poolAB [] (iteration poolAB tickCommitted (iteration poolAB tickTimedOut freshState)) :=
  have h := iteration_error_policy poolAB tickTimedOut tickCommitted [] freshState idA idB
    GoError.deadlineExceeded (by decide) rfl (by decide) (by decide)
  ⟨h.1, h.2.1 (by decide), h.2.2.2⟩

/-- C8. For a pool of at least two pairwise distinct ids, `lo.Samples(pool, 2)` returns
two members `ids[0]`, `ids[1]` of the pool with `ids[0] != ids[1]`, and these are
the `from` and `to` the round hands to `performTransfer`. -/
theorem samples_pair_distinct {B : Type} [Ring B] (pool : List GoString) (tk : Tick)
    (st : LoopState B) (hnd : pool.Nodup) (hlen : 2 ≤ pool.length) :
    ∃ id0 id1, Samples tk.rnd pool 2 = [id0, id1] ∧ id0 ∈ pool ∧ id1 ∈ pool ∧ id0 ≠ id1 ∧
      (iteration pool tk st).db =
        (performTransfer tk.tx tk.start tk.finish st.db id0 id1
          ((tk.amountRaw % 100 : Nat) : Int)).2 := by
  obtain ⟨id0, id1, hs, hm0, hm1⟩ := samples_two tk.rnd pool hlen
  exact ⟨id0, id1, hs, hm0, hm1, samples_two_ne tk.rnd pool hnd hlen id0 id1 hs,
    iteration_db pool tk st id0 id1 hs⟩

/-- C8, on a pool of three ids. -/
theorem samples_pair_distinct_witness :
    poolABC.Nodup ∧ 2 ≤ poolABC.length ∧
    ∃ id0 id1, Samples tickCommitted.rnd poolABC 2 = [id0, id1] ∧ id0 ∈ poolABC ∧
      id1 ∈ poolABC ∧ id0 ≠ id1 ∧
      (iteration poolABC tickCommitted freshState).db =
        (performTransfer tickCommitted.tx tickCommitted.start tickCommitted.finish
          freshState.db id0 id1 ((tickCommitted.amountRaw % 100 : Nat) : Int)).2 :=
  ⟨by decide, by decide,
    samples_pair_distinct poolABC tickCommitted freshState (by decide) (by decide)⟩

/-- C9. In a round of the loop over a pool of at least two ids of at least 8 bytes,
whatever `performTransfer` returns, the round appends to the log the "error: ..."
line of the error policy (none on success) and then exactly one line
"X -> Y took Nms", where X and Y are the first 8 bytes of `from` and `to` and N is
`(finish - start) / 1000000` in Go integer division, `start` and `finish` being the
clock readings at entry and at return of `performTransfer`; the elapsed time
returned is `finish - start` nanoseconds on every return path, with or without an
error. -/
theorem iteration_logs_one_took_line {B : Type} [Ring B] (pool : List GoString) (tk : Tick)
    (st : LoopState B) (hlen : 2 ≤ pool.length) (h8 : ∀ x ∈ pool, 8 ≤ x.length) :
    ∃ id0 id1, Samples tk.rnd pool 2 = [id0, id1] ∧
      (iteration pool tk st).log = st.log ++
        errorLines (performTransfer tk.tx tk.start tk.finish st.db id0 id1
          ((tk.amountRaw % 100 : Nat) : Int)).1.2 ++
        [LogLine.took (id0.take 8) (id1.take 8) (Int.tdiv (tk.finish - tk.start) 1000000)] ∧
      (∀ l ∈ errorLines (performTransfer tk.tx tk.start tk.finish st.db id0 id1
          ((tk.amountRaw % 100 : Nat) : Int)).1.2, l.isTook = false) ∧
      ((iteration pool tk st).log.drop st.log.length).countP LogLine.isTook = 1 ∧
      (performTransfer tk.tx tk.start tk.finish st.db id0 id1
        ((tk.amountRaw % 100 : Nat) : Int)).1.1 = tk.finish - tk.start := by
  obtain ⟨id0, id1, hs, hm0, hm1⟩ := samples_two tk.rnd pool hlen
  have hit := iteration_of_samples pool tk st id0 id1 hs (h8 id0 hm0) (h8 id1 hm1)
  have hnt := errorLines_not_took (performTransfer tk.tx tk.start tk.finish st.db id0 id1
        ((tk.amountRaw % 100 : Nat) : Int)).1.2
  have hel : (performTransfer tk.tx tk.start tk.finish st.db id0 id1
        ((tk.amountRaw % 100 : Nat) : Int)).1.1 = tk.finish - tk.start := by
    simp only [performTransfer, timeSince]
  refine ⟨id0, id1, hs, ?_, hnt, ?_, hel⟩
  · rw [hit]
    simp only [hel, Duration.Milliseconds]
  · rw [hit]
    simp only [List.append_assoc, List.drop_left, List.countP_append, List.countP_cons,
      List.countP_nil, LogLine.isTook]
    rw [List.countP_eq_zero.2 (fun l hl => by simp [hnt l hl])]
    rfl

/-- C9, on a failed and on a committed transfer between A and B. The failed one
returns after 1000000999 ns: the round logs the error line and
"aaaaaaaa -> bbbbbbbb took 1000ms". The committed one returns after 5998000 ns:
the round logs "aaaaaaaa -> bbbbbbbb took 5ms" alone. -/
theorem iteration_logs_one_took_line_witness :
    (2 ≤ poolAB.length ∧ ∀ x ∈ poolAB, 8 ≤ x.length) ∧
    ((iteration poolAB tickTimedOut freshState).log =
        [LogLine.error GoError.deadlineExceeded,
         LogLine.took (ascii "aaaaaaaa") (ascii "bbbbbbbb") 1000] ∧
      (performTransfer deadlineAtBegin 1000 1000001999 twoAccountsDb idA idB 42).1 =
        (1000000999, some GoError.deadlineExceeded)) ∧
    ((iteration poolAB tickCommitted freshState).log =
        [LogLine.took (ascii "aaaaaaaa") (ascii "bbbbbbbb") 5] ∧
      (performTransfer commitsAtOnce 1000 5999000 twoAccountsDb idA idB 42).1 =
        (5998000, none)) := by
  have hp : 2 ≤ poolAB.length ∧ ∀ x ∈ poolAB, 8 ≤ x.length := ⟨by decide, by decide⟩
  obtain ⟨a, b, hs, hlog, _, _, hel⟩ :=
    iteration_logs_one_took_line poolAB tickTimedOut freshState hp.1 hp.2
  obtain ⟨c, d, hs2, hlog2, _, _, hel2⟩ :=
    iteration_logs_one_took_line poolAB tickCommitted freshState hp.1 hp.2
  have e1 : Samples tickTimedOut.rnd poolAB 2 = [idA, idB] := by decide
  have e2 : Samples tickCommitted.rnd poolAB 2 = [idA, idB] := by decide
  have hab := List.cons.inj (e1.symm.trans hs)
  have hb := (List.cons.inj hab.2).1
  have hcd := List.cons.inj (e2.symm.trans hs2)
  have hd := (List.cons.inj hcd.2).1
  have ha := hab.1
  have hc := hcd.1
  subst ha hb hc hd
  have r1 : (performTransfer deadlineAtBegin 1000 1000001999 twoAccountsDb idA idB 42).1.2 =
      some GoError.deadlineExceeded := by decide
  have r2 : (performTransfer commitsAtOnce 1000 5999000 twoAccountsDb idA idB 42).1.2 =
      none := by decide
  refine ⟨hp, ⟨?_, Prod.ext hel r1⟩, ⟨?_, Prod.ext hel2 r2⟩⟩
  · rw [hlog]
    decide
  · rw [hlog2]
    decide

/-- C10. Index safety. For a pool of at least two ids, each at least 8 bytes long,
`lo.Samples(pool, 2)` returns `min(2, len(pool)) = 2` elements, the reads `ids[0]`,
`ids[1]` and the slices `ids[0][0:8]`, `ids[1][0:8]` are in range, and the round
ends without a panic. -/
theorem iteration_index_safe {B : Type} [Ring B] (pool : List GoString) (tk : Tick)
    (st : LoopState B) (hlen : 2 ≤ pool.length) (h8 : ∀ x ∈ pool, 8 ≤ x.length) :
    (Samples tk.rnd pool 2).length = min 2 pool.length ∧
    ∃ id0 id1 a b, (Samples tk.rnd pool 2)[0]? = some id0 ∧
      (Samples tk.rnd pool 2)[1]? = some id1 ∧
      slice id0 0 8 = some a ∧ slice id1 0 8 = some b ∧
      (iteration pool tk st).status = Status.running := by
  obtain ⟨id0, id1, hs, hm0, hm1⟩ := samples_two tk.rnd pool hlen
  have hit := iteration_of_samples pool tk st id0 id1 hs (h8 id0 hm0) (h8 id1 hm1)
  refine ⟨samples_length tk.rnd pool 2, id0, id1, id0.take 8, id1.take 8, ?_, ?_,
    slice_first8 id0 (h8 id0 hm0), slice_first8 id1 (h8 id1 hm1), ?_⟩
  · rw [hs]
    rfl
  · rw [hs]
    rfl
  · rw [hit]

/-- C10, on a pool of three ids in UUID text form. -/
theorem iteration_index_safe_witness :
    (2 ≤ poolABC.length ∧ ∀ x ∈ poolABC, 8 ≤ x.length) ∧
    (Samples tickCommitted.rnd poolABC 2).length = min 2 poolABC.length ∧
    ∃ id0 id1 a b, (Samples tickCommitted.rnd poolABC 2)[0]? = some id0 ∧
      (Samples tickCommitted.rnd poolABC 2)[1]? = some id1 ∧
      slice id0 0 8 = some a ∧ slice id1 0 8 = some b ∧
      (iteration poolABC tickCommitted freshState).status = Status.running :=
  ⟨⟨by decide, by decide⟩,
    iteration_index_safe poolABC tickCommitted freshState (by decide) (by decide)⟩

end CRDBGoApp
